import Mathlib

/-!
Verification development for the LLIK inverse-kinematics solver
(`llik.cpp` / `llik.h`, namespace `LLIK`).

Embedding conventions:
* Machine `F32` scalars are embedded as exact rationals (`ℚ`); overflow plays
  no role in the verified properties, which are control-flow and data-flow
  facts about the algorithms.
* `std::sqrt` (reached through `LLVector3::length`, `normalize`, `dist_vec`)
  has no exact rational counterpart, so every definition that needs it takes
  an explicit `sqrtQ : ℚ → ℚ` argument; concrete theorems instantiate it with
  a function that is exact on the (perfect-square) values actually reached.
* `dist > eps` comparisons on nonnegative distances are embedded at the
  squared level (`distSq > eps^2`), which is equivalent for the nonnegative
  tolerance the solver uses.
* `std::map` is embedded as an association list; the solver's maps have
  distinct keys, stated as `Nodup` hypotheses where a proof needs it.
-/

set_option maxRecDepth 8000

/-- Three-component vector (`LLVector3`), embedded over the rationals. -/
structure LLVector3 where
  x : ℚ
  y : ℚ
  z : ℚ
deriving DecidableEq

/-- Component-wise vector addition. -/
def LLVector3.add (a b : LLVector3) : LLVector3 := ⟨a.x + b.x, a.y + b.y, a.z + b.z⟩

/-- Component-wise vector subtraction. -/
def LLVector3.sub (a b : LLVector3) : LLVector3 := ⟨a.x - b.x, a.y - b.y, a.z - b.z⟩

/-- Scalar multiple of a vector. -/
def LLVector3.smul (c : ℚ) (v : LLVector3) : LLVector3 := ⟨c * v.x, c * v.y, c * v.z⟩

/-- Dot product. -/
def LLVector3.dot (a b : LLVector3) : ℚ := a.x * b.x + a.y * b.y + a.z * b.z

/-- Cross product (`operator%` on `LLVector3`). -/
def LLVector3.cross (a b : LLVector3) : LLVector3 :=
  ⟨a.y * b.z - a.z * b.y, a.z * b.x - a.x * b.z, a.x * b.y - a.y * b.x⟩

/-- Component-wise scaling (`LLVector3::scaledVec`). -/
def LLVector3.scaledVec (a s : LLVector3) : LLVector3 := ⟨a.x * s.x, a.y * s.y, a.z * s.z⟩

/-- Squared Euclidean norm. -/
def LLVector3.normSq (v : LLVector3) : ℚ := v.dot v

/-- Squared distance between two points (`dist_vec` squared). -/
def distSq (a b : LLVector3) : ℚ := (a.sub b).normSq

/-- Modelled from the spec: `LLVector3::normalize` (llmath, not under src/)
divides by the vector's length when it is positive and zeroes the vector
otherwise; the square root is supplied through `sqrtQ`. -/
def vnormalizeWith (sqrtQ : ℚ → ℚ) (v : LLVector3) : LLVector3 :=
  let n := sqrtQ v.normSq
  if 0 < n then LLVector3.smul (1 / n) v else ⟨0, 0, 0⟩

/-- Quaternion (`LLQuaternion`), components over the rationals. -/
structure LLQuaternion where
  x : ℚ
  y : ℚ
  z : ℚ
  w : ℚ
deriving DecidableEq

/-- The identity quaternion (`LLQuaternion::DEFAULT`). -/
def LLQuaternion.identity : LLQuaternion := ⟨0, 0, 0, 1⟩

/-- Component-wise quaternion addition. -/
def qadd (a b : LLQuaternion) : LLQuaternion := ⟨a.x + b.x, a.y + b.y, a.z + b.z, a.w + b.w⟩

/-- Component-wise quaternion subtraction. -/
def qsub (a b : LLQuaternion) : LLQuaternion := ⟨a.x - b.x, a.y - b.y, a.z - b.z, a.w - b.w⟩

/-- Scalar multiple of a quaternion. -/
def qsmul (c : ℚ) (q : LLQuaternion) : LLQuaternion := ⟨c * q.x, c * q.y, c * q.z, c * q.w⟩

/-- Quaternion conjugate (`LLQuaternion::conjugate`). -/
def qconj (q : LLQuaternion) : LLQuaternion := ⟨-q.x, -q.y, -q.z, q.w⟩

/-- Modelled from the spec: Hamilton product in the source's composition
convention (`q₁ · q₂` applies `q₁` first, then `q₂`). -/
def qmul (a b : LLQuaternion) : LLQuaternion :=
  ⟨a.w * b.x + a.x * b.w + a.y * b.z - a.z * b.y,
   a.w * b.y - a.x * b.z + a.y * b.w + a.z * b.x,
   a.w * b.z + a.x * b.y - a.y * b.x + a.z * b.w,
   a.w * b.w - a.x * b.x - a.y * b.y - a.z * b.z⟩

/-- Squared quaternion norm. -/
def LLQuaternion.normSq (q : LLQuaternion) : ℚ := q.x ^ 2 + q.y ^ 2 + q.z ^ 2 + q.w ^ 2

/-- Modelled from the spec: `LLQuaternion::normalize` (llmath, not under src/)
divides by the magnitude when it is positive, and otherwise resets to the
identity quaternion; the square root is supplied through `sqrtQ`. -/
def qnormalizeWith (sqrtQ : ℚ → ℚ) (q : LLQuaternion) : LLQuaternion :=
  let n := sqrtQ q.normSq
  if 0 < n then ⟨q.x / n, q.y / n, q.z / n, q.w / n⟩ else LLQuaternion.identity

/-- Modelled from the spec: rotating a vector by a unit quaternion (`v * q`). -/
def qrotate (v : LLVector3) (q : LLQuaternion) : LLVector3 :=
  let p : LLQuaternion := ⟨v.x, v.y, v.z, 0⟩
  let r := qmul (qmul (qconj q) p) q
  ⟨r.x, r.y, r.z⟩

/-- Modelled from the spec: `LLQuaternion::almost_equal` compares component
differences against the tolerance, either directly or after negating one
argument (quaternions double-cover rotations). -/
def almostEqualTol (a b : LLQuaternion) (tol : ℚ) : Bool :=
  (decide (|a.x - b.x| ≤ tol) && decide (|a.y - b.y| ≤ tol) &&
   decide (|a.z - b.z| ≤ tol) && decide (|a.w - b.w| ≤ tol)) ||
  (decide (|a.x + b.x| ≤ tol) && decide (|a.y + b.y| ≤ tol) &&
   decide (|a.z + b.z| ≤ tol) && decide (|a.w + b.w| ≤ tol))

/-- Modelled from the spec: quaternion `lerp` with final renormalization. -/
def qlerp (sqrtQ : ℚ → ℚ) (t : ℚ) (a b : LLQuaternion) : LLQuaternion :=
  qnormalizeWith sqrtQ (qadd a (qsmul t (qsub b a)))

/-- Association-list lookup, the embedding of `std::map::find`. -/
def findByKey {α β : Type} [DecidableEq α] (k : α) : List (α × β) → Option β
  | [] => none
  | p :: rest => if p.1 = k then some p.2 else findByKey k rest

/-- `CONFIG_FLAG_LOCAL_POS` from llik.h. -/
def CONFIG_FLAG_LOCAL_POS : Nat := 1

/-- `CONFIG_FLAG_LOCAL_ROT` from llik.h. -/
def CONFIG_FLAG_LOCAL_ROT : Nat := 2

/-- `CONFIG_FLAG_LOCAL_SCALE` from llik.h. -/
def CONFIG_FLAG_LOCAL_SCALE : Nat := 4

/-- `CONFIG_FLAG_DISABLE_CONSTRAINT` from llik.h. -/
def CONFIG_FLAG_DISABLE_CONSTRAINT : Nat := 8

/-- `CONFIG_FLAG_TARGET_POS` from llik.h. -/
def CONFIG_FLAG_TARGET_POS : Nat := 16

/-- `CONFIG_FLAG_TARGET_ROT` from llik.h. -/
def CONFIG_FLAG_TARGET_ROT : Nat := 32

/-- `CONFIG_FLAG_HAS_DELEGATED` from llik.h. -/
def CONFIG_FLAG_HAS_DELEGATED : Nat := 64

/-- `IK_FLAG_ACTIVE` from llik.h. -/
def IK_FLAG_ACTIVE : Nat := 32

/-- `IK_FLAG_LOCAL_ROT_LOCKED` from llik.h. -/
def IK_FLAG_LOCAL_ROT_LOCKED : Nat := 128

/-- Bit test on a flag word (`(flags & mask) > 0`). -/
def hasFlag (flags mask : Nat) : Bool := decide (0 < flags &&& mask)

/-- `LLIK::Joint::Config`: per-joint override record with presence bits. -/
structure Config where
  flags : Nat := 0
  localPos : LLVector3 := ⟨0, 0, 0⟩
  localRot : LLQuaternion := LLQuaternion.identity
  localScale : LLVector3 := ⟨0, 0, 0⟩
  targetPos : LLVector3 := ⟨0, 0, 0⟩
  targetRot : LLQuaternion := LLQuaternion.identity
deriving DecidableEq

/-- `Config::hasTargetPos`. -/
def Config.hasTargetPos (c : Config) : Bool := hasFlag c.flags CONFIG_FLAG_TARGET_POS

/-- `Config::hasTargetRot`. -/
def Config.hasTargetRot (c : Config) : Bool := hasFlag c.flags CONFIG_FLAG_TARGET_ROT

/-- `Config::hasDelegated`. -/
def Config.hasDelegated (c : Config) : Bool := hasFlag c.flags CONFIG_FLAG_HAS_DELEGATED

/-- Per-entry comparison inside `LLIK::Solver::updateJointConfigs`
(llik.cpp lines 2776-2807): an entry "changed" when the flag words differ,
or a flagged field moved beyond its tolerance (positions: `mAcceptableError`
on the distance, compared here at the squared level; rotations:
`LLQuaternion::almost_equal`). -/
def configEntryChanged (posErr rotTol : ℚ) (oldc newc : Config) : Bool :=
  if oldc.flags = newc.flags then
    (hasFlag oldc.flags CONFIG_FLAG_TARGET_POS &&
       decide (posErr ^ 2 < distSq oldc.targetPos newc.targetPos)) ||
    (hasFlag oldc.flags CONFIG_FLAG_TARGET_ROT &&
       !almostEqualTol oldc.targetRot newc.targetRot rotTol) ||
    (hasFlag oldc.flags CONFIG_FLAG_LOCAL_POS &&
       decide (posErr ^ 2 < distSq oldc.localPos newc.localPos)) ||
    (hasFlag oldc.flags CONFIG_FLAG_LOCAL_ROT &&
       !almostEqualTol oldc.localRot newc.localRot rotTol)
  else true

/-- `LLIK::Solver::updateJointConfigs` (llik.cpp lines 2765-2825): diff the
incoming config map against the cached one; on any change replace the cache
and return true, otherwise keep the cache and return false. -/
def updateJointConfigs (posErr rotTol : ℚ) (cached incoming : List (Int × Config)) :
    Bool × List (Int × Config) :=
  let changed : Bool :=
    if cached.length = incoming.length then
      cached.any fun p =>
        match findByKey p.1 incoming with
        | some nc => configEntryChanged posErr rotTol p.2 nc
        | none => true
    else true
  (changed, if changed then incoming else cached)

/-- Spec-side predicate for one config entry: same flag word, and every
configured field within tolerance (positions within the acceptable error,
rotations almost-equal). -/
def ConfigWithinTolerance (posErr rotTol : ℚ) (oldc newc : Config) : Prop :=
  oldc.flags = newc.flags ∧
  (hasFlag oldc.flags CONFIG_FLAG_TARGET_POS = true →
    distSq oldc.targetPos newc.targetPos ≤ posErr ^ 2) ∧
  (hasFlag oldc.flags CONFIG_FLAG_TARGET_ROT = true →
    almostEqualTol oldc.targetRot newc.targetRot rotTol = true) ∧
  (hasFlag oldc.flags CONFIG_FLAG_LOCAL_POS = true →
    distSq oldc.localPos newc.localPos ≤ posErr ^ 2) ∧
  (hasFlag oldc.flags CONFIG_FLAG_LOCAL_ROT = true →
    almostEqualTol oldc.localRot newc.localRot rotTol = true)

/-- Spec-side predicate for the whole map: structurally identical (exactly the
same joint ids on both sides) and every common entry within tolerance. -/
def ConfigMapsWithinTolerance (posErr rotTol : ℚ)
    (cached incoming : List (Int × Config)) : Prop :=
  (∀ jid : Int, (findByKey jid cached).isSome ↔ (findByKey jid incoming).isSome) ∧
  (∀ (jid : Int) (oc nc : Config), findByKey jid cached = some oc →
    findByKey jid incoming = some nc → ConfigWithinTolerance posErr rotTol oc nc)

/-- Truncation toward zero, the embedding of the C cast `(S32)(f)`. -/
def ratTrunc (q : ℚ) : ℤ := if 0 ≤ q then ⌊q⌋ else ⌈q⌉

/-- `remove_multiples_of_two_pi` (llik.cpp lines 131-135):
`angle - F_TWO_PI * (S32)(angle / F_TWO_PI)`.  `pi` stands for `F_PI`. -/
def remove_multiples_of_two_pi (pi angle : ℚ) : ℚ :=
  angle - (2 * pi) * (ratTrunc (angle / (2 * pi)) : ℚ)

/-- `compute_angle_limits` (llik.cpp lines 137-157): alias both limits,
subtract a turn from any value above `pi`, and swap so min ≤ max. -/
def compute_angle_limits (pi minAngle maxAngle : ℚ) : ℚ × ℚ :=
  let maxA := remove_multiples_of_two_pi pi maxAngle
  let maxA := if pi < maxA then maxA - 2 * pi else maxA
  let minA := remove_multiples_of_two_pi pi minAngle
  let minA := if pi < minA then minA - 2 * pi else minA
  if maxA < minA then (maxA, minA) else (minA, maxA)

/-- `MIN_SOLVER_ITERATIONS` from `LLIK::Solver::solve`. -/
def MIN_SOLVER_ITERATIONS : Nat := 4

/-- `MAX_SOLVER_ITERATIONS` from `LLIK::Solver::solve`. -/
def MAX_SOLVER_ITERATIONS : Nat := 16

/-- `std::numeric_limits<F32>::max()`, exactly. -/
def F32_MAX : ℚ := (2 ^ 24 - 1) * 2 ^ 104

/-- Outcome of the solver's iteration loop: the returned error, the number of
FABRIK passes executed, and the final solver state. -/
structure SolveResult (σ : Type) where
  err : ℚ
  passes : Nat
  state : σ

/-- The iteration loop of `LLIK::Solver::solve` (llik.cpp lines 3181-3191):
`for (loop = 0; loop < MIN || (loop < MAX && err > acceptable); ++loop)
   err = solveOnce()`.
One pass (`solveOnce` = `executeFabrikPass` + `measureMaxError`) is abstracted
as `pass` on a solver state `σ` together with the error readout `measure`. -/
def solveLoop {σ : Type} (pass : σ → σ) (measure : σ → ℚ) (acc : ℚ)
    (loop : Nat) (err : ℚ) (s : σ) : SolveResult σ :=
  if h : loop < MIN_SOLVER_ITERATIONS ∨ (loop < MAX_SOLVER_ITERATIONS ∧ acc < err) then
    solveLoop pass measure acc (loop + 1) (measure (pass s)) (pass s)
  else ⟨err, loop, s⟩
termination_by MAX_SOLVER_ITERATIONS - loop
decreasing_by
  simp only [MIN_SOLVER_ITERATIONS, MAX_SOLVER_ITERATIONS] at h ⊢
  rcases h with h | ⟨h, _⟩ <;> omega

/-- `LLIK::Solver::solve` entry into the loop: the error accumulator starts at
`std::numeric_limits<F32>::max()` and the loop counter at 0. -/
def Solver.solve {σ : Type} (pass : σ → σ) (measure : σ → ℚ) (acc : ℚ) (s0 : σ) :
    SolveResult σ :=
  solveLoop pass measure acc 0 F32_MAX s0

/-- Rest geometry supplied by the external `LLJoint` info provider. -/
structure JointInfo where
  position : LLVector3
  endPos : LLVector3
  scale : LLVector3
deriving DecidableEq

/-- A parent joint's current world-frame transform, as read through the
`mParent` pointer; `none` models a null `mParent` (the root joint). -/
structure Frame where
  pos : LLVector3
  rot : LLQuaternion
deriving DecidableEq

/-- `LLIK::Joint`: one bone of the skeleton (llik.h). -/
structure Joint where
  id : Int := 0
  localPos : LLVector3 := ⟨0, 0, 0⟩
  pos : LLVector3 := ⟨0, 0, 0⟩
  localRot : LLQuaternion := LLQuaternion.identity
  rot : LLQuaternion := LLQuaternion.identity
  localScale : LLVector3 := ⟨1, 1, 1⟩
  bone : LLVector3 := ⟨0, 0, 0⟩
  localPosLength : ℚ := 0
  config : Config := {}
  configFlags : Nat := 0
  ikFlags : Nat := 0
deriving DecidableEq

/-- `Joint::localRotLocked`. -/
def Joint.localRotLocked (j : Joint) : Bool := hasFlag j.ikFlags IK_FLAG_LOCAL_ROT_LOCKED

/-- `Joint::isActive`. -/
def Joint.isActive (j : Joint) : Bool := hasFlag j.ikFlags IK_FLAG_ACTIVE

/-- `Joint::hasRotTarget` (reads the cached config flags). -/
def Joint.hasRotTarget (j : Joint) : Bool := hasFlag j.configFlags CONFIG_FLAG_TARGET_ROT

/-- `Joint::resetFromInfo` (llik.cpp lines 1588-1597): re-pull scaled rest
geometry; `mLocalScale` is reset to ones. -/
def Joint.resetFromInfo (info : JointInfo) (sqrtQ : ℚ → ℚ) (j : Joint) : Joint :=
  let lp := info.position.scaledVec info.scale
  { j with localPos := lp, bone := info.endPos.scaledVec info.scale,
           localPosLength := sqrtQ lp.normSq, localScale := ⟨1, 1, 1⟩ }

/-- `Joint::reset` (llik.cpp lines 1631-1647). -/
def Joint.reset (info : JointInfo) (sqrtQ : ℚ → ℚ) (parent : Option Frame) (j : Joint) :
    Joint :=
  let j := j.resetFromInfo info sqrtQ
  let j := { j with localRot := LLQuaternion.identity }
  match parent with
  | some p => { j with pos := p.pos.add (qrotate j.localPos p.rot), rot := p.rot }
  | none => { j with pos := j.localPos, rot := j.localRot }

/-- `Joint::setParent` (llik.cpp lines 1617-1629): a joint given no parent is
the root and has its local rotation locked; then `reset()`. -/
def Joint.setParent (info : JointInfo) (sqrtQ : ℚ → ℚ) (parent : Option Frame) (j : Joint) :
    Joint :=
  let j := if parent.isNone then { j with ikFlags := IK_FLAG_LOCAL_ROT_LOCKED } else j
  j.reset info sqrtQ parent

/-- `Joint::relaxRot` (llik.cpp lines 1649-1667). -/
def Joint.relaxRot (sqrtQ : ℚ → ℚ) (parent : Option Frame) (blendFactor : ℚ) (j : Joint) :
    Joint :=
  let j := if j.localRotLocked then j
    else { j with localRot := qlerp sqrtQ blendFactor j.localRot LLQuaternion.identity }
  match parent with
  | some p =>
      { j with rot := qnormalizeWith sqrtQ (qmul j.localRot p.rot),
               pos := p.pos.add (qrotate j.localPos p.rot) }
  | none => { j with rot := j.localRot, pos := j.localPos }

/-- `WORLD_ROT_TARGET_BACKPRESSURE_COEF` from `Joint::applyLocalRot`. -/
def WORLD_ROT_TARGET_BACKPRESSURE_COEF : ℚ := 1 / 2

/-- `Joint::applyLocalRot` (llik.cpp lines 1981-2010). -/
def Joint.applyLocalRot (sqrtQ : ℚ → ℚ) (parent : Option Frame) (j : Joint) : Joint :=
  match parent with
  | some p =>
      if j.hasRotTarget then
        let newRot := qmul j.localRot p.rot
        let rot := qlerp sqrtQ WORLD_ROT_TARGET_BACKPRESSURE_COEF j.config.targetRot newRot
        let localRot := qnormalizeWith sqrtQ (qmul rot (qconj p.rot))
        { j with rot := rot, localRot := localRot }
      else
        { j with rot := qnormalizeWith sqrtQ (qmul j.localRot p.rot) }
  | none => { j with rot := j.localRot }

/-- `Joint::lockLocalRot` (llik.cpp lines 2081-2090). -/
def Joint.lockLocalRot (parent : Option Frame) (localRot : LLQuaternion) (j : Joint) :
    Joint :=
  let j := { j with localRot := localRot,
                    ikFlags := j.ikFlags ||| IK_FLAG_LOCAL_ROT_LOCKED ||| IK_FLAG_ACTIVE }
  if parent.isNone then { j with rot := localRot } else j

/-- `Joint::setLocalRot` (llik.cpp lines 2162-2171): a no-op on a locked joint. -/
def Joint.setLocalRot (newLocalRot : LLQuaternion) (j : Joint) : Joint :=
  if j.localRotLocked then j else { j with localRot := newLocalRot }

/-- `Joint::resetFlags` (llik.cpp lines 2073-2079): clear the config pointer
and flags; the root joint always keeps `IK_FLAG_LOCAL_ROT_LOCKED`. -/
def Joint.resetFlags (parent : Option Frame) (j : Joint) : Joint :=
  { j with config := {}, configFlags := 0,
           ikFlags := if parent.isSome then 0 else IK_FLAG_LOCAL_ROT_LOCKED }

/-- `Joint::updatePosAndRotFromParent` (llik.cpp lines 1947-1956). -/
def Joint.updatePosAndRotFromParent (sqrtQ : ℚ → ℚ) (parent : Option Frame) (j : Joint) :
    Joint :=
  match parent with
  | some p =>
      { j with pos := p.pos.add (qrotate j.localPos p.rot),
               rot := qnormalizeWith sqrtQ (qmul j.localRot p.rot) }
  | none => j

/-- `Joint::computeWorldEndPos` (llik.cpp lines 2133-2136). -/
def Joint.computeWorldEndPos (j : Joint) : LLVector3 := j.pos.add (qrotate j.bone j.rot)

/-- The default `LLIK::Constraint::enforce` (llik.cpp lines 296-313): project
the joint's current local rotation (`computeAdjustedLocalRot`, abstracted as
`project` since each constraint subtype overrides it), write it back through
`setLocalRot` when it moved beyond `almost_equal`, and report whether the
joint was adjusted.  The world-frame `mRot` is not touched. -/
def Constraint.enforce (tol : ℚ) (project : LLQuaternion → LLQuaternion) (j : Joint) :
    Bool × Joint :=
  let adjusted := project j.localRot
  if almostEqualTol adjusted j.localRot tol then (false, j)
  else (true, j.setLocalRot adjusted)

/-- The slice of a joint that `Solver::buildChain` inspects while walking
toward the root. -/
structure ChainJoint where
  id : Int
  hasPosTarget : Bool
  numChildren : Nat
deriving DecidableEq

/-- The solver-level inputs of the chain builder. -/
structure SolverCfg where
  rootID : Int
  subBaseIds : List Int
  subRootIds : List Int
deriving DecidableEq

/-- `LLIK::Solver::isSubBase` (llik.cpp lines 2526-2533): membership in the
caller-provided sub-base whitelist. -/
def Solver.isSubBase (cfg : SolverCfg) (jointId : Int) : Bool :=
  cfg.subBaseIds.contains jointId

/-- `LLIK::Solver::isSubRoot` (llik.cpp lines 2535-2538). -/
def Solver.isSubRoot (cfg : SolverCfg) (jointId : Int) : Bool :=
  !cfg.subRootIds.isEmpty && cfg.subRootIds.contains jointId

/-- The ancestor walk of `LLIK::Solver::buildChain` (llik.cpp lines 3291-3322):
append each ancestor (activating it), then stop after appending a sub-root,
the root, a position-targeted ancestor, or a sub-base; a sub-base stop also
records the joint id in the pending sub-base set.  The walk also stops when
the chain reaches `chainLimit` entries. -/
def buildChainWalk (cfg : SolverCfg) (chainLimit : Nat) :
    List ChainJoint → List ChainJoint → List Int → List ChainJoint × List Int
  | [], chain, subBases => (chain, subBases)
  | j :: rest, chain, subBases =>
    if chain.length < chainLimit then
      let chain' := chain ++ [j]
      if Solver.isSubRoot cfg j.id then (chain', subBases)
      else if j.id = cfg.rootID then (chain', subBases)
      else if j.hasPosTarget then (chain', subBases)
      else if (cfg.subBaseIds.isEmpty && decide (1 < j.numChildren)) ||
              Solver.isSubBase cfg j.id then
        (chain', subBases.insert j.id)
      else buildChainWalk cfg chainLimit rest chain' subBases
    else (chain, subBases)

/-- `LLIK::Solver::buildChain` (llik.cpp lines 3280-3323): seed the chain with
the targeted joint, then walk up its ancestors.  `ancestors` is the seed's
ancestor path in order (parent first). -/
def buildChain (cfg : SolverCfg) (seed : ChainJoint) (ancestors : List ChainJoint)
    (subBases : List Int) (chainLimit : Nat) : List ChainJoint × List Int :=
  buildChainWalk cfg chainLimit ancestors [seed] subBases

/-- The walk's stop condition as the code implements it, reformulated: the
topology test (more than one child) is consulted only when the caller supplied
no sub-base whitelist; with a whitelist, only listed joints stop the walk. -/
def stopsWalk (cfg : SolverCfg) (j : ChainJoint) : Bool :=
  Solver.isSubRoot cfg j.id || decide (j.id = cfg.rootID) || j.hasPosTarget ||
    (if cfg.subBaseIds.isEmpty then decide (1 < j.numChildren)
     else Solver.isSubBase cfg j.id)

/-- The walk stopped at `j` specifically because `j` is a sub-base (none of the
earlier stop conditions applied). -/
def subBaseStop (cfg : SolverCfg) (j : ChainJoint) : Bool :=
  !Solver.isSubRoot cfg j.id && !decide (j.id = cfg.rootID) && !j.hasPosTarget &&
    ((cfg.subBaseIds.isEmpty && decide (1 < j.numChildren)) || Solver.isSubBase cfg j.id)

/-- The claim's stop condition, as the claim words it: a "true sub-base" is a
joint with more than one child OR a joint in the caller-provided whitelist,
regardless of whether a whitelist was supplied. -/
def claimedStop (cfg : SolverCfg) (j : ChainJoint) : Bool :=
  Solver.isSubRoot cfg j.id || decide (j.id = cfg.rootID) || j.hasPosTarget ||
    (decide (1 < j.numChildren) || Solver.isSubBase cfg j.id)

/-- One step of the child-update loop of `Joint::updateEndInward` (llik.cpp
lines 1798-1805): an active child recomputes its local rotation
(`updateLocalRot`, abstracted as `updateChild` receiving this joint's current
world rotation) and the fired flag is or-ed in; an inactive child is skipped. -/
def childLoopStep (updateChild : LLQuaternion → Joint → Bool × Joint)
    (rot : LLQuaternion) (acc : List Joint × Bool) (c : Joint) : List Joint × Bool :=
  if c.isActive then (acc.1 ++ [(updateChild rot c).2], (updateChild rot c).1 || acc.2)
  else (acc.1 ++ [c], acc.2)

/-- The child-update loop of `Joint::updateEndInward` (llik.cpp lines
1798-1805): each active child recomputes its local rotation with constraints
enforced, and the joint records whether any child's constraint fired. -/
def updateEndInwardChildLoop (updateChild : LLQuaternion → Joint → Bool × Joint)
    (rot : LLQuaternion) (children : List Joint) : List Joint × Bool :=
  children.foldl (childLoopStep updateChild rot) ([], false)

/-- One step of the recompute loop of `Joint::updateEndInward` (llik.cpp lines
1814-1834): add `(child.local_rot)⁻¹ · child.rot` into the running sum with
hemisphere sign correction, renormalize the sum, and assign it to `mRot` —
all inside the loop body.  The state is `(avg_rot, mRot)`. -/
def avgLoopStep (sqrtQ : ℚ → ℚ) (st : LLQuaternion × LLQuaternion) (c : Joint) :
    LLQuaternion × LLQuaternion :=
  let r := qmul (qconj c.localRot) c.rot
  let avg := qnormalizeWith sqrtQ (if r.w < 0 then qsub st.1 r else qadd st.1 r)
  (avg, avg)

/-- The recompute loop of `Joint::updateEndInward` (llik.cpp lines 1806-1835):
starting from the zero quaternion, it walks `mChildren` — all of them, with no
activity test — and folds `avgLoopStep` over them; `mRot` keeps its old value
when the joint has no children. -/
def updateEndInwardAvgLoop (sqrtQ : ℚ → ℚ) (children : List Joint) (rot : LLQuaternion) :
    LLQuaternion :=
  (children.foldl (avgLoopStep sqrtQ) (⟨0, 0, 0, 0⟩, rot)).2

/-- The tail of `Joint::updateEndInward` (llik.cpp lines 1797-1835): update the
active children, and when any constraint fired recompute this joint's world
rotation from the children. -/
def Joint.updateEndInwardChildPhase (sqrtQ : ℚ → ℚ)
    (updateChild : LLQuaternion → Joint → Bool × Joint)
    (rot : LLQuaternion) (children : List Joint) : List Joint × LLQuaternion :=
  let res := updateEndInwardChildLoop updateChild rot children
  if res.2 then (res.1, updateEndInwardAvgLoop sqrtQ res.1 rot) else (res.1, rot)

/-- One hemisphere-corrected summand of the child-rotation average. -/
def signedAccum (acc : LLQuaternion) (c : Joint) : LLQuaternion :=
  let r := qmul (qconj c.localRot) c.rot
  if r.w < 0 then qsub acc r else qadd acc r

/-- Spec-side restatement of the recompute loop: the running, renormalized
sign-corrected average over a (nonempty) child list. -/
def signedRunningAvg (sqrtQ : ℚ → ℚ) : LLQuaternion → List Joint → LLQuaternion
  | acc, [] => qnormalizeWith sqrtQ acc
  | acc, c :: rest =>
      if rest.isEmpty then qnormalizeWith sqrtQ (signedAccum acc c)
      else signedRunningAvg sqrtQ (qnormalizeWith sqrtQ (signedAccum acc c)) rest

/-- The average the claim describes: the sign-corrected additive quaternion
average of `child.local_rot⁻¹ · child.rot` across the active children only,
inactive children excluded. -/
def claimedActiveChildAvg (sqrtQ : ℚ → ℚ) (children : List Joint) : LLQuaternion :=
  qnormalizeWith sqrtQ ((children.filter Joint.isActive).foldl signedAccum ⟨0, 0, 0, 0⟩)

/-- One input fed into the running `boost::hash_combine` chain of a
`generateHash` implementation. -/
inductive HashInput where
  | tagVal (t : Nat)
  | vecVal (v : LLVector3)
  | ratVal (q : ℚ)
deriving DecidableEq

/-- Ordinal of `ACUTE_ELLIPSOIDAL_CONE_CONSTRAINT` in `Constraint::ConstraintType`. -/
def ACUTE_ELLIPSOIDAL_CONE_CONSTRAINT : Nat := 6

/-- `LLIK::AcuteEllipsoidalCone`: the stored fields (llik.h). -/
structure AcuteEllipsoidalCone where
  mForward : LLVector3
  mUp : LLVector3
  mLeft : LLVector3
  mXForward : ℚ
  mXUp : ℚ
  mXDown : ℚ
  mXLeft : ℚ
  mXRight : ℚ
  mQuadrantScales : List ℚ
  mQuadrantCosAngles : List ℚ
  mQuadrantCotAngles : List ℚ
deriving DecidableEq

/-- The `AcuteEllipsoidalCone` constructor (llik.cpp lines 1245-1286):
normalize the axes, rebuild `mForward` perpendicular to `mUp`, derive
`mLeft = mUp × mForward`, store the raw extents, and cache per-quadrant
scales and angle data. -/
def AcuteEllipsoidalCone.make (sqrtQ : ℚ → ℚ) (forwardAxis upAxis : LLVector3)
    (forward up left down right : ℚ) : AcuteEllipsoidalCone :=
  let f0 := vnormalizeWith sqrtQ forwardAxis
  let mUp := vnormalizeWith sqrtQ upAxis
  let mForward := vnormalizeWith sqrtQ ((mUp.cross f0).cross mUp)
  let mLeft := mUp.cross mForward
  let u := |up / forward|
  let l := |left / forward|
  let d := |down / forward|
  let r := |right / forward|
  { mForward := mForward, mUp := mUp, mLeft := mLeft,
    mXForward := forward, mXUp := up, mXDown := down, mXLeft := left, mXRight := right,
    mQuadrantScales := [u / r, u / l, d / l, d / r],
    mQuadrantCosAngles := [1 / sqrtQ (u * u + 1), 1 / sqrtQ (u * u + 1),
                           1 / sqrtQ (d * d + 1), 1 / sqrtQ (d * d + 1)],
    mQuadrantCotAngles := [1 / u, 1 / u, 1 / d, 1 / d] }

/-- `LLIK::AcuteEllipsoidalCone::generateHash` (llik.cpp lines 1302-1313) as
the ordered list of values fed to `boost::hash_combine`: the base class
contributes the type tag and `mForward`; the subtype then combines `mUp`,
`mXForward`, `mXUp`, `mXDown`, `mLeft` (the derived left axis — source line
1310), and `mXRight`. -/
def AcuteEllipsoidalCone.generateHashInputs (c : AcuteEllipsoidalCone) : List HashInput :=
  [HashInput.tagVal ACUTE_ELLIPSOIDAL_CONE_CONSTRAINT, HashInput.vecVal c.mForward,
   HashInput.vecVal c.mUp, HashInput.ratVal c.mXForward, HashInput.ratVal c.mXUp,
   HashInput.ratVal c.mXDown, HashInput.vecVal c.mLeft, HashInput.ratVal c.mXRight]

/-- `LLIKConstraintFactory::getConstraint` (llik.cpp lines 3631-3651): the
cache is keyed by the constraint's hash; a hit returns the cached instance,
a miss stores the new one.  Keys are embedded as the hash-input lists (equal
inputs give equal hashes under any hash function). -/
def factoryGetConstraint (cache : List (List HashInput × AcuteEllipsoidalCone))
    (c : AcuteEllipsoidalCone) :
    AcuteEllipsoidalCone × List (List HashInput × AcuteEllipsoidalCone) :=
  match findByKey c.generateHashInputs cache with
  | none => (c, cache ++ [(c.generateHashInputs, c)])
  | some shared => (shared, cache)

/-- `LLIK::Solver::getJointWorldRot` (llik.cpp lines 3255-3264): unknown joint
ids yield the default (identity) quaternion. -/
def Solver.getJointWorldRot (skeleton : List (Int × Joint)) (jointId : Int) :
    LLQuaternion :=
  match findByKey jointId skeleton with
  | some j => j.rot
  | none => LLQuaternion.identity

/-- `LLIK::Solver::measureMaxError` (llik.cpp lines 3497-3532): walk the config
map; for each non-root, position-targeted, non-delegated entry read the joint
through `mSkeleton[joint_id]` and fold the distance to its target into the
running max.  `mSkeleton[joint_id]` is `std::map::operator[]`: on a missing id
it default-constructs a null `Joint::ptr_t` which the call then dereferences —
modelled as `none` (the fault). -/
def Solver.measureMaxError (sqrtQ : ℚ → ℚ) (rootID : Int)
    (skeleton : List (Int × Joint)) (configs : List (Int × Config)) : Option ℚ :=
  configs.foldl
    (fun acc p =>
      match acc with
      | none => none
      | some maxErr =>
        if p.1 = rootID then some maxErr
        else if p.2.hasTargetPos && !p.2.hasDelegated then
          match findByKey p.1 skeleton with
          | none => none
          | some j =>
            let dist := sqrtQ (distSq j.computeWorldEndPos p.2.targetPos)
            some (if maxErr < dist then dist else maxErr)
        else some maxErr)
    (some 0)

/-- Demo config for the C1 witness. -/
def cfgDemo : Config := { flags := CONFIG_FLAG_TARGET_POS, targetPos := ⟨1, 2, 3⟩ }

/-- Demo solver inputs for the C2 counterexample: a non-empty sub-base
whitelist that does not list joint 1. -/
def cfgC2 : SolverCfg := { rootID := 0, subBaseIds := [99], subRootIds := [] }

/-- C2 demo: the position-targeted seed joint. -/
def jSeedC2 : ChainJoint := ⟨5, true, 0⟩

/-- C2 demo: an untargeted ancestor with two children (a topological sub-base)
that is not on the whitelist. -/
def jMidC2 : ChainJoint := ⟨1, false, 2⟩

/-- C2 demo: the root joint. -/
def jRootC2 : ChainJoint := ⟨0, false, 1⟩

/-- Demo joint for the C6 witness (unlocked: `ikFlags = 0`). -/
def jointW6 : Joint := {}

/-- Demo square root for C7, exact on the values the counterexample reaches. -/
def sqrtC7 : ℚ → ℚ := fun s => if s = 1 then 1 else if s = 64 / 25 then 8 / 5 else 0

/-- Demo child update for C7: reports the constraint as fired, changes nothing. -/
def updC7 : LLQuaternion → Joint → Bool × Joint := fun _ c => (true, c)

/-- C7 demo: an active child at the identity pose. -/
def childA : Joint := { ikFlags := IK_FLAG_ACTIVE }

/-- C7 demo: an inactive child whose world rotation disagrees with its local
rotation, so it drags the average away from the active children's value. -/
def childB : Joint := { rot := ⟨24 / 25, 0, 0, 7 / 25⟩ }

/-- Demo square root for C9, exact on the values the construction reaches. -/
def sqrtC9 : ℚ → ℚ := fun s =>
  if s = 1 then 1 else if s = 25 / 16 then 5 / 4 else if s = 25 / 9 then 5 / 3 else 0

/-- C9 demo: an ellipsoidal cone with left extent 1. -/
def coneLeft1 : AcuteEllipsoidalCone :=
  AcuteEllipsoidalCone.make sqrtC9 ⟨1, 0, 0⟩ ⟨0, 0, 1⟩ 1 (3 / 4) 1 (4 / 3) 1

/-- C9 demo: the same cone except the left extent is 2. -/
def coneLeft2 : AcuteEllipsoidalCone :=
  AcuteEllipsoidalCone.make sqrtC9 ⟨1, 0, 0⟩ ⟨0, 0, 1⟩ 1 (3 / 4) 2 (4 / 3) 1

/-- Demo square root for C10 (never consulted on the failing input). -/
def sqrtC10 : ℚ → ℚ := fun _ => 0

/-- C10 demo: a skeleton holding only joint 1. -/
def skelC10 : List (Int × Joint) := [(1, { id := 1 })]

/-- C10 demo: a config map naming joint 7, which the skeleton does not have,
with a position target. -/
def cfgsC10 : List (Int × Config) :=
  [(7, { flags := CONFIG_FLAG_TARGET_POS, targetPos := ⟨1, 2, 3⟩ })]

/-- `Joint::setWorldRot` (llik.cpp lines 2156-2160): writes the world-frame
rotation directly; the local rotation is not touched. -/
def Joint.setWorldRot (rot : LLQuaternion) (j : Joint) : Joint := { j with rot := rot }

/-- Modelled from the spec: `LLQuaternion::shortestArc` (llmath, not under
src/) — the unit quaternion rotating unit vector `u` onto unit vector `v` by
the half-angle trick (`(u × v, 1 + u·v)` renormalized); in the antipodal case
a half-turn about a perpendicular axis (falling back from the x- to the
y-axis); the identity on degenerate input. -/
def shortestArcWith (sqrtQ : ℚ → ℚ) (u v : LLVector3) : LLQuaternion :=
  let d := u.dot v
  let c := u.cross v
  if 0 < c.normSq then
    qnormalizeWith sqrtQ ⟨c.x, c.y, c.z, 1 + d⟩
  else if d < 0 then
    let p := u.cross ⟨1, 0, 0⟩
    let p := if 0 < p.normSq then p else u.cross ⟨0, 1, 0⟩
    let p := vnormalizeWith sqrtQ p
    ⟨p.x, p.y, p.z, 0⟩
  else LLQuaternion.identity

/-- The shoulder back-rotation step of `ElbowConstraint::enforce` (llik.cpp
lines 882-905), for a shoulder joint whose parent (`collar_joint`) is null —
i.e. the shoulder is the root.  `upperPivot` is the constraint's pivot axis
rotated by the shoulder's world rot (line 837) and `bendPivot` the normalized
bend axis of the shoulder-elbow-wrist triangle (lines 840-858), both computed
earlier in `enforce` and passed in here.  When the shortest-arc adjustment
between them is not almost-identity, the shoulder's world rot is rotated via
`setWorldRot` and the follow-up `setLocalRot(getWorldRot())` (line 902) is
meant to restore `local_rot = rot` on the parentless shoulder.  `tol` stands
for `VERY_SMALL_ANGLE`.  (`KneeConstraint::enforce`, lines 1095-1118, has the
same structure.) -/
def elbowEnforceShoulderRoot (sqrtQ : ℚ → ℚ) (tol : ℚ) (upperPivot bendPivot : LLVector3)
    (shoulder : Joint) : Joint :=
  let adjustment := shortestArcWith sqrtQ upperPivot bendPivot
  if almostEqualTol adjustment LLQuaternion.identity tol then shoulder
  else
    let shoulderRot := qnormalizeWith sqrtQ (qmul shoulder.rot adjustment)
    let shoulder := Joint.setWorldRot shoulderRot shoulder
    Joint.setLocalRot shoulder.rot shoulder

/-- Demo square root for the C4 evaluation, exact on the values reached. -/
def sqrtC4 : ℚ → ℚ := fun s => if s = 1 then 1 else if s = 64 / 25 then 8 / 5 else 0

/-- C4 demo: a root joint at the identity pose — locked, with its world
rotation equal to its local rotation, as at the start of a pass. -/
def rootC4 : Joint := { ikFlags := IK_FLAG_LOCAL_ROT_LOCKED }

/-! ## Theorems -/

/-- A key found by `findByKey` names an entry of the list. -/
theorem findByKey_eq_some_mem {α β : Type} [DecidableEq α] {k : α} {b : β} :
    ∀ {l : List (α × β)}, findByKey k l = some b → (k, b) ∈ l := by
  intro l
  induction l with
  | nil => intro h; simp [findByKey] at h
  | cons p rest ih =>
      intro h
      rw [findByKey] at h
      by_cases hp : p.1 = k
      · rw [if_pos hp] at h
        have hb : p.2 = b := by simpa using h
        subst hb
        subst hp
        exact List.mem_cons_self _ _
      · rw [if_neg hp] at h
        exact List.mem_cons_of_mem _ (ih h)

/-- `findByKey` succeeds exactly on the keys of the list. -/
theorem findByKey_isSome_iff {α β : Type} [DecidableEq α] (k : α) :
    ∀ (l : List (α × β)), (findByKey k l).isSome = true ↔ k ∈ l.map Prod.fst := by
  intro l
  induction l with
  | nil => simp [findByKey]
  | cons p rest ih =>
      rw [findByKey]
      by_cases hp : p.1 = k
      · simp [hp]
      · rw [if_neg hp]
        simp only [List.map_cons, List.mem_cons, ih]
        constructor
        · intro h; exact Or.inr h
        · rintro (h | h)
          · exact absurd h.symm hp
          · exact h

/-- On a list with distinct keys, `findByKey` returns a member's own payload. -/
theorem findByKey_of_mem {α β : Type} [DecidableEq α] :
    ∀ {l : List (α × β)}, (l.map Prod.fst).Nodup → ∀ {p : α × β}, p ∈ l →
      findByKey p.1 l = some p.2 := by
  intro l
  induction l with
  | nil => intro _ p hp; simp at hp
  | cons q rest ih =>
      intro hnd p hp
      rw [findByKey]
      rcases List.mem_cons.mp hp with h | h
      · subst h
        rw [if_pos rfl]
      · have hnd' : q.1 ∉ rest.map Prod.fst ∧ (rest.map Prod.fst).Nodup := by
          rw [List.map_cons, List.nodup_cons] at hnd
          exact hnd
        by_cases hq : q.1 = p.1
        · exfalso
          have hmem : p.1 ∈ rest.map Prod.fst := List.mem_map_of_mem Prod.fst h
          exact hnd'.1 (hq ▸ hmem)
        · rw [if_neg hq]
          exact ih hnd'.2 h

/-- Entry-level reading of `configEntryChanged`: it reports "unchanged"
exactly when the flag words agree and every flagged field is within its
tolerance. -/
theorem configEntryChanged_eq_false_iff (posErr rotTol : ℚ) (oldc newc : Config) :
    configEntryChanged posErr rotTol oldc newc = false ↔
      ConfigWithinTolerance posErr rotTol oldc newc := by
  unfold configEntryChanged ConfigWithinTolerance
  by_cases hf : oldc.flags = newc.flags
  · rw [if_pos hf]
    cases h1 : hasFlag oldc.flags CONFIG_FLAG_TARGET_POS <;>
    cases h2 : hasFlag oldc.flags CONFIG_FLAG_TARGET_ROT <;>
    cases h3 : hasFlag oldc.flags CONFIG_FLAG_LOCAL_POS <;>
    cases h4 : hasFlag oldc.flags CONFIG_FLAG_LOCAL_ROT <;>
    simp_all [not_lt, and_assoc]
  · rw [if_neg hf]
    simp [hf]

/-- Claim C1: `update_joint_configs(configs)` returns false iff the incoming
config map is structurally identical to the cached map (exactly the same
joint ids, each with the same flag word) and every configured field of every
entry is within tolerance — target and local positions within the acceptable
error, target and local rotations almost-equal; when it returns true the
cached map is replaced by the incoming map, and when it returns false the
cached map is left unchanged. -/
theorem updateJointConfigs_spec (posErr rotTol : ℚ) (cached incoming : List (Int × Config))
    (hc : (cached.map Prod.fst).Nodup) (hi : (incoming.map Prod.fst).Nodup) :
    ((updateJointConfigs posErr rotTol cached incoming).1 = false ↔
      ConfigMapsWithinTolerance posErr rotTol cached incoming) ∧
    ((updateJointConfigs posErr rotTol cached incoming).1 = true →
      (updateJointConfigs posErr rotTol cached incoming).2 = incoming) ∧
    ((updateJointConfigs posErr rotTol cached incoming).1 = false →
      (updateJointConfigs posErr rotTol cached incoming).2 = cached) := by
  have hfst : (updateJointConfigs posErr rotTol cached incoming).1 =
      (if cached.length = incoming.length then
        cached.any fun p =>
          match findByKey p.1 incoming with
          | some nc => configEntryChanged posErr rotTol p.2 nc
          | none => true
      else true) := rfl
  have hsnd : (updateJointConfigs posErr rotTol cached incoming).2 =
      (if (updateJointConfigs posErr rotTol cached incoming).1 = true then incoming
       else cached) := rfl
  have hiff : (updateJointConfigs posErr rotTol cached incoming).1 = false ↔
      ConfigMapsWithinTolerance posErr rotTol cached incoming := by
    rw [hfst]
    constructor
    · intro hfalse
      by_cases hlen : cached.length = incoming.length
      case neg =>
        rw [if_neg hlen] at hfalse
        exact absurd hfalse (by simp)
      rw [if_pos hlen] at hfalse
      rw [List.any_eq_false] at hfalse
      have hall : ∀ p ∈ cached, (match findByKey p.1 incoming with
          | some nc => configEntryChanged posErr rotTol p.2 nc
          | none => true) = false := by
        intro p hp
        have := hfalse p hp
        simpa using this
      have hkey : ∀ jid : Int, (findByKey jid cached).isSome = true →
          (findByKey jid incoming).isSome = true := by
        intro jid hs
        obtain ⟨oc, hoc⟩ := Option.isSome_iff_exists.mp hs
        have hmem := findByKey_eq_some_mem hoc
        have hm := hall _ hmem
        cases hfi : findByKey jid incoming with
        | none => rw [hfi] at hm; simp at hm
        | some nc => simp [hfi]
      refine ⟨?_, ?_⟩
      · intro jid
        constructor
        · exact fun h => hkey jid h
        · intro hs
          have hsub : ∀ a ∈ cached.map Prod.fst, a ∈ incoming.map Prod.fst := by
            intro a ha
            exact (findByKey_isSome_iff a incoming).mp
              (hkey a ((findByKey_isSome_iff a cached).mpr ha))
          have hlen2 : (incoming.map Prod.fst).length ≤ (cached.map Prod.fst).length := by
            simpa [List.length_map] using hlen.ge
          have hperm := (hc.subperm (fun a ha => hsub a ha)).perm_of_length_le hlen2
          have hmemc : jid ∈ cached.map Prod.fst :=
            hperm.mem_iff.mpr ((findByKey_isSome_iff jid incoming).mp hs)
          exact (findByKey_isSome_iff jid cached).mpr hmemc
      · intro jid oc nc h1 h2
        have hmem := findByKey_eq_some_mem h1
        have hm := hall _ hmem
        rw [h2] at hm
        exact (configEntryChanged_eq_false_iff posErr rotTol oc nc).mp hm
    · intro hw
      obtain ⟨hkeys, hent⟩ := hw
      have hmemiff : ∀ a : Int, a ∈ cached.map Prod.fst ↔ a ∈ incoming.map Prod.fst := by
        intro a
        rw [← findByKey_isSome_iff, ← findByKey_isSome_iff]
        exact hkeys a
      have hlen : cached.length = incoming.length := by
        have := ((List.perm_ext_iff_of_nodup hc hi).mpr hmemiff).length_eq
        simpa [List.length_map] using this
      rw [if_pos hlen]
      rw [List.any_eq_false]
      intro p hp
      have h1 : findByKey p.1 cached = some p.2 := findByKey_of_mem hc hp
      have hs : (findByKey p.1 incoming).isSome = true :=
        (hkeys p.1).mp (by rw [h1]; rfl)
      obtain ⟨nc, hnc⟩ := Option.isSome_iff_exists.mp hs
      rw [hnc]
      simp only [Bool.not_eq_true]
      exact (configEntryChanged_eq_false_iff posErr rotTol p.2 nc).mpr (hent p.1 p.2 nc h1 hnc)
  refine ⟨hiff, ?_, ?_⟩
  · intro h
    rw [hsnd, h, if_pos rfl]
  · intro h
    rw [hsnd, h]
    simp

/-- Claim C1 witness: the theorem applied at a one-entry map compared with
itself. -/
theorem updateJointConfigs_spec_witness :
    ((updateJointConfigs 1 0 [((1 : Int), cfgDemo)] [((1 : Int), cfgDemo)]).1 = false ↔
      ConfigMapsWithinTolerance 1 0 [((1 : Int), cfgDemo)] [((1 : Int), cfgDemo)]) ∧
    ((updateJointConfigs 1 0 [((1 : Int), cfgDemo)] [((1 : Int), cfgDemo)]).1 = true →
      (updateJointConfigs 1 0 [((1 : Int), cfgDemo)] [((1 : Int), cfgDemo)]).2 =
        [((1 : Int), cfgDemo)]) ∧
    ((updateJointConfigs 1 0 [((1 : Int), cfgDemo)] [((1 : Int), cfgDemo)]).1 = false →
      (updateJointConfigs 1 0 [((1 : Int), cfgDemo)] [((1 : Int), cfgDemo)]).2 =
        [((1 : Int), cfgDemo)]) :=
  updateJointConfigs_spec 1 0 [((1 : Int), cfgDemo)] [((1 : Int), cfgDemo)]
    (by simp) (by simp)

/-- Characterization of the solver iteration loop started at any counter
value: bounds on the executed pass count, the exit condition, and the fact
that the returned error is the measurement taken after the final pass. -/
theorem solveLoop_spec {σ : Type} (pass : σ → σ) (measure : σ → ℚ) (acc : ℚ) :
    ∀ (fuel loop : Nat) (err : ℚ) (s : σ), MAX_SOLVER_ITERATIONS - loop ≤ fuel →
      loop ≤ (solveLoop pass measure acc loop err s).passes ∧
      (solveLoop pass measure acc loop err s).passes ≤ max loop MAX_SOLVER_ITERATIONS ∧
      MIN_SOLVER_ITERATIONS ≤ (solveLoop pass measure acc loop err s).passes ∧
      ((solveLoop pass measure acc loop err s).passes < MAX_SOLVER_ITERATIONS →
        (solveLoop pass measure acc loop err s).err ≤ acc) ∧
      ((solveLoop pass measure acc loop err s).passes = loop →
        (solveLoop pass measure acc loop err s).err = err ∧
        (solveLoop pass measure acc loop err s).state = s) ∧
      (loop < (solveLoop pass measure acc loop err s).passes →
        (solveLoop pass measure acc loop err s).state =
          pass^[(solveLoop pass measure acc loop err s).passes - loop] s ∧
        (solveLoop pass measure acc loop err s).err =
          measure ((solveLoop pass measure acc loop err s).state)) ∧
      (loop < (solveLoop pass measure acc loop err s).passes →
        (loop < MIN_SOLVER_ITERATIONS ∨ (loop < MAX_SOLVER_ITERATIONS ∧ acc < err))) ∧
      (∀ k, loop < k → k < (solveLoop pass measure acc loop err s).passes →
        MIN_SOLVER_ITERATIONS ≤ k → acc < measure (pass^[k - loop] s)) := by
  intro fuel
  induction fuel with
  | zero =>
      intro loop err s hfuel
      have hguard : ¬ (loop < MIN_SOLVER_ITERATIONS ∨
          (loop < MAX_SOLVER_ITERATIONS ∧ acc < err)) := by
        simp only [MIN_SOLVER_ITERATIONS, MAX_SOLVER_ITERATIONS] at *
        rintro (h | ⟨h, _⟩) <;> omega
      rw [solveLoop, dif_neg hguard]
      push_neg at hguard
      refine ⟨le_refl _, le_max_left _ _, hguard.1, ?_, fun _ => ⟨rfl, rfl⟩,
        fun h => absurd h (lt_irrefl _), fun h => absurd h (lt_irrefl _), ?_⟩
      · intro hlt
        exact hguard.2 hlt
      · intro k hk1 hk2 _
        exact absurd (hk1.trans hk2) (lt_irrefl _)
  | succ n ih =>
      intro loop err s hfuel
      rw [solveLoop]
      by_cases hguard : loop < MIN_SOLVER_ITERATIONS ∨
          (loop < MAX_SOLVER_ITERATIONS ∧ acc < err)
      · rw [dif_pos hguard]
        have hloopmax : loop < MAX_SOLVER_ITERATIONS := by
          simp only [MIN_SOLVER_ITERATIONS, MAX_SOLVER_ITERATIONS] at *
          rcases hguard with h | ⟨h, _⟩ <;> omega
        have hfuel' : MAX_SOLVER_ITERATIONS - (loop + 1) ≤ n := by omega
        obtain ⟨g1, g2, g3, g4, g5, g6, g7, g8⟩ := ih (loop + 1) (measure (pass s)) (pass s) hfuel'
        set r := solveLoop pass measure acc (loop + 1) (measure (pass s)) (pass s) with hr
        refine ⟨by omega, ?_, g3, g4, fun h => absurd h (by omega), ?_, fun _ => hguard, ?_⟩
        · have : max (loop + 1) MAX_SOLVER_ITERATIONS = MAX_SOLVER_ITERATIONS :=
            Nat.max_eq_right hloopmax
          rw [this] at g2
          exact g2.trans (le_max_right _ _)
        · intro _
          rcases Nat.lt_or_ge (loop + 1) r.passes with hlt | hge
          · obtain ⟨hst, herr⟩ := g6 hlt
            have harith : r.passes - (loop + 1) + 1 = r.passes - loop := by omega
            constructor
            · rw [hst, ← Function.iterate_succ_apply]
              simp only [Nat.succ_eq_add_one]
              rw [harith]
            · rw [herr]
          · have heq : r.passes = loop + 1 := le_antisymm hge g1
            obtain ⟨herr, hst⟩ := g5 heq
            constructor
            · rw [hst, heq]
              have : loop + 1 - loop = 1 := by omega
              rw [this, Function.iterate_one]
            · rw [herr, hst]
        · intro k hk1 hk2 hk3
          rcases Nat.lt_or_ge (loop + 1) k with hlt | hge
          · have := g8 k hlt hk2 hk3
            have harith : k - (loop + 1) + 1 = k - loop := by omega
            rw [← Function.iterate_succ_apply] at this
            simp only [Nat.succ_eq_add_one] at this
            rwa [harith] at this
          · have hkeq : k = loop + 1 := le_antisymm hge hk1
            subst hkeq
            have hg := g7 hk2
            have : loop + 1 - loop = 1 := by omega
            rw [this, Function.iterate_one]
            rcases hg with h | ⟨_, h⟩
            · exfalso
              simp only [MIN_SOLVER_ITERATIONS] at *
              omega
            · exact h
      · rw [dif_neg hguard]
        push_neg at hguard
        refine ⟨le_refl _, le_max_left _ _, hguard.1, ?_, fun _ => ⟨rfl, rfl⟩,
          fun h => absurd h (lt_irrefl _), fun h => absurd h (lt_irrefl _), ?_⟩
        · intro hlt
          exact hguard.2 hlt
        · intro k hk1 hk2 _
          exact absurd (hk1.trans hk2) (lt_irrefl _)

/-- Claim C3: every call to `solve()` executes at most `MAX_SOLVER_ITERATIONS`
(16) FABRIK passes and at least `MIN_SOLVER_ITERATIONS` (4); the loop exits
before the 16th pass only when the measured max error after the last executed
pass is at most the acceptable error, and every earlier pass from the 4th on
measured an error above the acceptable error; the returned value is always the
max error measured after the final pass executed. -/
theorem solver_solve_iteration_spec {σ : Type} (pass : σ → σ) (measure : σ → ℚ)
    (acc : ℚ) (s0 : σ) :
    MIN_SOLVER_ITERATIONS ≤ (Solver.solve pass measure acc s0).passes ∧
    (Solver.solve pass measure acc s0).passes ≤ MAX_SOLVER_ITERATIONS ∧
    (Solver.solve pass measure acc s0).state =
      pass^[(Solver.solve pass measure acc s0).passes] s0 ∧
    (Solver.solve pass measure acc s0).err =
      measure ((Solver.solve pass measure acc s0).state) ∧
    ((Solver.solve pass measure acc s0).passes < MAX_SOLVER_ITERATIONS →
      (Solver.solve pass measure acc s0).err ≤ acc) ∧
    (∀ k, MIN_SOLVER_ITERATIONS ≤ k → k < (Solver.solve pass measure acc s0).passes →
      acc < measure (pass^[k] s0)) := by
  obtain ⟨g1, g2, g3, g4, g5, g6, g7, g8⟩ :=
    solveLoop_spec pass measure acc MAX_SOLVER_ITERATIONS 0 F32_MAX s0 (by omega)
  have hpos : 0 < (Solver.solve pass measure acc s0).passes := by
    have : (0 : Nat) < MIN_SOLVER_ITERATIONS := by simp [MIN_SOLVER_ITERATIONS]
    exact this.trans_le g3
  obtain ⟨hst, herr⟩ := g6 hpos
  refine ⟨g3, ?_, ?_, herr, g4, ?_⟩
  · simpa using g2
  · simpa using hst
  · intro k hk1 hk2
    have := g8 k (by simp only [MIN_SOLVER_ITERATIONS] at hk1; omega) hk2 hk1
    simpa using this

/-- Root lock discipline of the kinematic primitives: for the joint handed no
parent the local-rot-locked flag is established by `setParent` and
re-established by `resetFlags` at every chain rebuild; `setLocalRot` on a
locked joint changes nothing; and each of `setParent`, `reset`, `relaxRot`,
`applyLocalRot` and `lockLocalRot` leaves a parentless joint's world rotation
equal to its local rotation (`updatePosAndRotFromParent` is the identity on
the root).  The constraint back-pressure path is the exception — see the
evaluation of `elbowEnforceShoulderRoot` below. -/
theorem root_local_rot_locked_spec (info : JointInfo) (sqrtQ : ℚ → ℚ) (t : ℚ)
    (q : LLQuaternion) (j : Joint) :
    (Joint.setParent info sqrtQ none j).localRotLocked = true ∧
    (Joint.resetFlags none j).localRotLocked = true ∧
    (j.localRotLocked = true → j.setLocalRot q = j) ∧
    (Joint.setParent info sqrtQ none j).rot = (Joint.setParent info sqrtQ none j).localRot ∧
    (Joint.reset info sqrtQ none j).rot = (Joint.reset info sqrtQ none j).localRot ∧
    (Joint.relaxRot sqrtQ none t j).rot = (Joint.relaxRot sqrtQ none t j).localRot ∧
    (Joint.applyLocalRot sqrtQ none j).rot = (Joint.applyLocalRot sqrtQ none j).localRot ∧
    (Joint.lockLocalRot none q j).rot = (Joint.lockLocalRot none q j).localRot ∧
    j.updatePosAndRotFromParent sqrtQ none = j := by
  refine ⟨?_, ?_, ?_, rfl, rfl, rfl, rfl, rfl, rfl⟩
  · simp [Joint.setParent, Joint.reset, Joint.resetFromInfo, Joint.localRotLocked, hasFlag,
      IK_FLAG_LOCAL_ROT_LOCKED]
  · simp [Joint.resetFlags, Joint.localRotLocked, hasFlag, IK_FLAG_LOCAL_ROT_LOCKED]
  · intro h
    simp [Joint.setLocalRot, h]

/-- `almost_equal` accepts two equal quaternions whenever the tolerance is
nonnegative. -/
theorem almostEqualTol_refl (q : LLQuaternion) {tol : ℚ} (h : 0 ≤ tol) :
    almostEqualTol q q tol = true := by
  simp [almostEqualTol, h]

/-- Claim C6: the default `Constraint::enforce(joint)` projects the joint's
current `local_rot`; when the projection is not almost-equal to the current
value it writes the projected value into `local_rot` (and only then), it
returns true exactly when the joint changed, and in every case the joint's
world-frame `rot` is left untouched. -/
theorem constraint_enforce_spec (tol : ℚ) (project : LLQuaternion → LLQuaternion)
    (j : Joint) (hlock : j.localRotLocked = false) (htol : 0 ≤ tol) :
    ((Constraint.enforce tol project j).1 = true ↔ (Constraint.enforce tol project j).2 ≠ j) ∧
    (Constraint.enforce tol project j).2.rot = j.rot ∧
    ((Constraint.enforce tol project j).1 = true →
      (Constraint.enforce tol project j).2.localRot = project j.localRot) ∧
    ((Constraint.enforce tol project j).1 = false →
      (Constraint.enforce tol project j).2 = j) := by
  by_cases hae : almostEqualTol (project j.localRot) j.localRot tol = true
  · have hpair : Constraint.enforce tol project j = (false, j) := by
      simp [Constraint.enforce, hae]
    rw [hpair]
    simp
  · have hae' : almostEqualTol (project j.localRot) j.localRot tol = false := by
      simpa using hae
    have hne : project j.localRot ≠ j.localRot := by
      intro he
      rw [he] at hae
      exact hae (almostEqualTol_refl j.localRot htol)
    have hpair : Constraint.enforce tol project j =
        (true, { j with localRot := project j.localRot }) := by
      simp [Constraint.enforce, Joint.setLocalRot, hae', hlock]
    rw [hpair]
    refine ⟨?_, rfl, fun _ => rfl, ?_⟩
    · constructor
      · intro _ heq
        exact hne (congrArg Joint.localRot heq)
      · intro _
        rfl
    · intro hf
      simp at hf

/-- Claim C6 witness: the theorem applied to an unlocked joint with the
identity projection and zero tolerance. -/
theorem constraint_enforce_spec_witness :
    ((Constraint.enforce 0 (fun q => q) jointW6).1 = true ↔
      (Constraint.enforce 0 (fun q => q) jointW6).2 ≠ jointW6) ∧
    (Constraint.enforce 0 (fun q => q) jointW6).2.rot = jointW6.rot ∧
    ((Constraint.enforce 0 (fun q => q) jointW6).1 = true →
      (Constraint.enforce 0 (fun q => q) jointW6).2.localRot = (fun q => q) jointW6.localRot) ∧
    ((Constraint.enforce 0 (fun q => q) jointW6).1 = false →
      (Constraint.enforce 0 (fun q => q) jointW6).2 = jointW6) :=
  constraint_enforce_spec 0 (fun q => q) jointW6
    (by simp [jointW6, Joint.localRotLocked, hasFlag]) le_rfl

/-- Claim C2 counterexample: with a non-empty sub-base whitelist `{99}`, the
walk from joint 5 does NOT stop at joint 1 even though joint 1 has two
children — the condition the claim calls a "true sub-base" — and no sub-base
id is recorded; the chain runs through to the root instead. -/
theorem buildChain_whitelist_counterexample :
    claimedStop cfgC2 jMidC2 = true ∧
    (buildChain cfgC2 jSeedC2 [jMidC2, jRootC2] [] 255).1 = [jSeedC2, jMidC2, jRootC2] ∧
    (buildChain cfgC2 jSeedC2 [jMidC2, jRootC2] [] 255).2 = [] := by
  refine ⟨by decide, by decide, by decide⟩

/-- The code's stop condition written as one boolean, for case analysis. -/
theorem stopsWalk_eq (cfg : SolverCfg) (j : ChainJoint) :
    stopsWalk cfg j =
      (Solver.isSubRoot cfg j.id || decide (j.id = cfg.rootID) || j.hasPosTarget ||
        ((cfg.subBaseIds.isEmpty && decide (1 < j.numChildren)) ||
          Solver.isSubBase cfg j.id)) := by
  unfold stopsWalk Solver.isSubBase
  by_cases he : cfg.subBaseIds.isEmpty
  · have hnil : cfg.subBaseIds = [] := List.isEmpty_iff.mp he
    rw [if_pos he]
    simp [hnil, beq_iff_eq]
  · have he' : cfg.subBaseIds.isEmpty = false := by simpa using he
    rw [if_neg he]
    simp [he', beq_iff_eq]

/-- The ancestor walk of `buildChain`, characterized: the chain receives every
ancestor up to and including the first one satisfying the code's stop
condition, and the pending sub-base set receives that joint's id exactly when
it stopped the walk as a sub-base. -/
theorem buildChainWalk_spec (cfg : SolverCfg) (chainLimit : Nat) :
    ∀ (ancestors chain : List ChainJoint) (subBases : List Int),
      chain.length + ancestors.length ≤ chainLimit →
      buildChainWalk cfg chainLimit ancestors chain subBases =
        (chain ++ ancestors.takeWhile (fun j => !stopsWalk cfg j) ++
           (ancestors.dropWhile (fun j => !stopsWalk cfg j)).take 1,
         match (ancestors.dropWhile (fun j => !stopsWalk cfg j)).head? with
         | some t => if subBaseStop cfg t then subBases.insert t.id else subBases
         | none => subBases) := by
  intro ancestors
  induction ancestors with
  | nil =>
      intro chain subBases _
      simp [buildChainWalk]
  | cons j rest ih =>
      intro chain subBases h
      have hlt : chain.length < chainLimit := by
        simp only [List.length_cons] at h
        omega
      rw [buildChainWalk, if_pos hlt]
      by_cases h1 : Solver.isSubRoot cfg j.id = true
      · have hstop : stopsWalk cfg j = true := by rw [stopsWalk_eq]; simp [h1]
        have hsb : subBaseStop cfg j = false := by simp [subBaseStop, h1]
        rw [if_pos h1]
        simp [hstop, hsb]
      · have h1' : Solver.isSubRoot cfg j.id = false := by simpa using h1
        rw [if_neg h1]
        by_cases h2 : j.id = cfg.rootID
        · have hstop : stopsWalk cfg j = true := by rw [stopsWalk_eq]; simp [h2]
          have hsb : subBaseStop cfg j = false := by simp [subBaseStop, h2]
          rw [if_pos h2]
          simp [hstop, hsb]
        · rw [if_neg h2]
          by_cases h3 : j.hasPosTarget = true
          · have hstop : stopsWalk cfg j = true := by rw [stopsWalk_eq]; simp [h3]
            have hsb : subBaseStop cfg j = false := by simp [subBaseStop, h3]
            rw [if_pos h3]
            simp [hstop, hsb]
          · have h3' : j.hasPosTarget = false := by simpa using h3
            rw [if_neg h3]
            by_cases h4 : ((cfg.subBaseIds.isEmpty && decide (1 < j.numChildren)) ||
                Solver.isSubBase cfg j.id) = true
            · have hstop : stopsWalk cfg j = true := by rw [stopsWalk_eq]; simp [h4]
              have hsb : subBaseStop cfg j = true := by
                simp [subBaseStop, h1', h2, h3', h4]
              rw [if_pos h4]
              simp [hstop, hsb]
            · have h4' : ((cfg.subBaseIds.isEmpty && decide (1 < j.numChildren)) ||
                  Solver.isSubBase cfg j.id) = false := by simpa using h4
              have hstop : stopsWalk cfg j = false := by
                rw [stopsWalk_eq]
                simp only [Bool.or_eq_false_iff] at h4' ⊢
                simp [h1', h2, h3', h4'.1, h4'.2]
              rw [if_neg h4]
              rw [ih (chain ++ [j]) subBases
                (by simp only [List.length_append, List.length_cons, List.length_nil,
                      List.length_singleton] at h ⊢; omega)]
              simp [hstop, List.append_assoc]

/-- Claim C2 (amended): `buildChain`, walking up from the seeded joint,
appends each visited joint to the chain and stops, inclusive of the stopping
joint, at the first ancestor that is a caller-configured sub-root, the root,
a position-targeted joint, or a true sub-base — a joint on the caller's
sub-base whitelist or, only when no whitelist was supplied, a joint with more
than one child; when the stop reason was a sub-base, that joint's id is
inserted into the pending sub-base set.  (`chainLimit` large enough that the
config's chain limit does not truncate the walk.) -/
theorem buildChain_stop_spec (cfg : SolverCfg) (seed : ChainJoint)
    (ancestors : List ChainJoint) (subBases : List Int) (chainLimit : Nat)
    (hlimit : ancestors.length + 1 ≤ chainLimit) :
    (buildChain cfg seed ancestors subBases chainLimit).1 =
      seed :: (ancestors.takeWhile (fun j => !stopsWalk cfg j) ++
        (ancestors.dropWhile (fun j => !stopsWalk cfg j)).take 1) ∧
    (buildChain cfg seed ancestors subBases chainLimit).2 =
      (match (ancestors.dropWhile (fun j => !stopsWalk cfg j)).head? with
       | some t => if subBaseStop cfg t then subBases.insert t.id else subBases
       | none => subBases) := by
  unfold buildChain
  rw [buildChainWalk_spec cfg chainLimit ancestors [seed] subBases
    (by simp only [List.length_singleton]; omega)]
  constructor
  · simp
  · rfl

/-- Claim C2 witness: the amended theorem applied at the counterexample's
skeleton, on which the chain runs through to the root. -/
theorem buildChain_stop_spec_witness :
    (buildChain cfgC2 jSeedC2 [jMidC2, jRootC2] [] 255).1 =
      jSeedC2 :: ([jMidC2, jRootC2].takeWhile (fun j => !stopsWalk cfgC2 j) ++
        ([jMidC2, jRootC2].dropWhile (fun j => !stopsWalk cfgC2 j)).take 1) ∧
    (buildChain cfgC2 jSeedC2 [jMidC2, jRootC2] [] 255).2 =
      (match ([jMidC2, jRootC2].dropWhile (fun j => !stopsWalk cfgC2 j)).head? with
       | some t => if subBaseStop cfgC2 t then List.insert t.id [] else ([] : List Int)
       | none => ([] : List Int)) :=
  buildChain_stop_spec cfgC2 jSeedC2 [jMidC2, jRootC2] [] 255 (by norm_num)

/-- The child-update fold, from any accumulator: the updated children are
appended in order (active ones through `updateChild`, inactive ones verbatim)
and the fired flag is the disjunction over the active children. -/
theorem childLoop_foldl_spec (updateChild : LLQuaternion → Joint → Bool × Joint)
    (rot : LLQuaternion) :
    ∀ (children : List Joint) (acc : List Joint) (flag : Bool),
      children.foldl (childLoopStep updateChild rot) (acc, flag) =
        (acc ++ children.map (fun c => if c.isActive then (updateChild rot c).2 else c),
         flag || children.any (fun c => c.isActive && (updateChild rot c).1)) := by
  intro children
  induction children with
  | nil =>
      intro acc flag
      simp
  | cons c rest ih =>
      intro acc flag
      by_cases hc : c.isActive = true
      · rw [List.foldl_cons]
        have hstep : childLoopStep updateChild rot (acc, flag) c =
            (acc ++ [(updateChild rot c).2], (updateChild rot c).1 || flag) := by
          simp [childLoopStep, hc]
        rw [hstep, ih]
        simp only [List.map_cons, List.any_cons, Prod.mk.injEq]
        constructor
        · simp [hc]
        · simp only [hc, Bool.true_and]
          cases (updateChild rot c).1 <;> cases flag <;> simp
      · have hc' : c.isActive = false := by simpa using hc
        rw [List.foldl_cons]
        have hstep : childLoopStep updateChild rot (acc, flag) c = (acc ++ [c], flag) := by
          simp [childLoopStep, hc']
        rw [hstep, ih]
        simp [hc']

/-- The recompute fold equals the spec-side running average on any nonempty
child list. -/
theorem avgLoop_foldl_spec (sqrtQ : ℚ → ℚ) :
    ∀ (children : List Joint) (acc : LLQuaternion) (r0 : LLQuaternion),
      children ≠ [] →
      (children.foldl (avgLoopStep sqrtQ) (acc, r0)).2 = signedRunningAvg sqrtQ acc children := by
  intro children
  induction children with
  | nil =>
      intro acc r0 h
      exact absurd rfl h
  | cons c rest ih =>
      intro acc r0 _
      rw [List.foldl_cons]
      have hstep : avgLoopStep sqrtQ (acc, r0) c =
          (qnormalizeWith sqrtQ (signedAccum acc c), qnormalizeWith sqrtQ (signedAccum acc c)) := by
        simp [avgLoopStep, signedAccum]
      rw [hstep]
      rcases rest with _ | ⟨d, rest'⟩
      · simp [signedRunningAvg]
      · rw [ih _ _ (by simp)]
        conv_rhs => rw [signedRunningAvg]
        simp

/-- Claim C7 (amended): after the active children recompute their local
rotations, the joint's world rotation is recomputed — when any child's
constraint fired — as the running, renormalized sign-corrected additive
average of `child.local_rot⁻¹ · child.rot` taken across ALL of the joint's
children, the inactive ones included; when no constraint fired the rotation
is left unchanged. -/
theorem updateEndInward_childPhase_spec (sqrtQ : ℚ → ℚ)
    (updateChild : LLQuaternion → Joint → Bool × Joint) (rot : LLQuaternion)
    (children : List Joint) :
    ((Joint.updateEndInwardChildPhase sqrtQ updateChild rot children).1 =
      children.map fun c => if c.isActive then (updateChild rot c).2 else c) ∧
    ((children.any fun c => c.isActive && (updateChild rot c).1) = false →
      (Joint.updateEndInwardChildPhase sqrtQ updateChild rot children).2 = rot) ∧
    ((children.any fun c => c.isActive && (updateChild rot c).1) = true →
      (Joint.updateEndInwardChildPhase sqrtQ updateChild rot children).2 =
        signedRunningAvg sqrtQ ⟨0, 0, 0, 0⟩
          (children.map fun c => if c.isActive then (updateChild rot c).2 else c)) := by
  have hloop : updateEndInwardChildLoop updateChild rot children =
      (children.map (fun c => if c.isActive then (updateChild rot c).2 else c),
       children.any (fun c => c.isActive && (updateChild rot c).1)) := by
    unfold updateEndInwardChildLoop
    rw [childLoop_foldl_spec]
    simp
  by_cases hfired : (children.any fun c => c.isActive && (updateChild rot c).1) = true
  · have hne : children ≠ [] := by
      intro hnil
      rw [hnil] at hfired
      simp at hfired
    have hmapne : (children.map fun c => if c.isActive then (updateChild rot c).2 else c) ≠ [] := by
      simpa using hne
    have hphase : Joint.updateEndInwardChildPhase sqrtQ updateChild rot children =
        (children.map (fun c => if c.isActive then (updateChild rot c).2 else c),
         updateEndInwardAvgLoop sqrtQ
           (children.map fun c => if c.isActive then (updateChild rot c).2 else c) rot) := by
      unfold Joint.updateEndInwardChildPhase
      rw [hloop]
      simp [hfired]
    rw [hphase]
    refine ⟨rfl, ?_, ?_⟩
    · intro hf
      rw [hf] at hfired
      simp at hfired
    · intro _
      unfold updateEndInwardAvgLoop
      exact avgLoop_foldl_spec sqrtQ _ _ _ hmapne
  · have hfired' : (children.any fun c => c.isActive && (updateChild rot c).1) = false := by
      simpa using hfired
    have hphase : Joint.updateEndInwardChildPhase sqrtQ updateChild rot children =
        (children.map (fun c => if c.isActive then (updateChild rot c).2 else c), rot) := by
      unfold Joint.updateEndInwardChildPhase
      rw [hloop]
      simp [hfired']
    rw [hphase]
    refine ⟨rfl, fun _ => rfl, ?_⟩
    intro hf
    rw [hf] at hfired'
    simp at hfired'

/-- Claim C7 counterexample: on a joint with one active child at the identity
pose and one INACTIVE child at a different pose, the code's recompute loop
yields `(3/5, 0, 0, 4/5)` — the inactive child is folded into the average —
while the average across the active children only, as the claim states it,
is the identity quaternion. -/
theorem updateEndInward_inactive_child_counterexample :
    (Joint.updateEndInwardChildPhase sqrtC7 updC7 LLQuaternion.identity [childA, childB]).2 =
        ⟨3 / 5, 0, 0, 4 / 5⟩ ∧
    claimedActiveChildAvg sqrtC7 [childA, childB] = LLQuaternion.identity ∧
    (⟨3 / 5, 0, 0, 4 / 5⟩ : LLQuaternion) ≠ LLQuaternion.identity := by
  refine ⟨?_, ?_, ?_⟩
  · norm_num [Joint.updateEndInwardChildPhase, updateEndInwardChildLoop, updateEndInwardAvgLoop,
      childLoopStep, avgLoopStep, childA, childB, updC7, sqrtC7, Joint.isActive, hasFlag,
      IK_FLAG_ACTIVE, qmul, qconj, qadd, qsub, qnormalizeWith, LLQuaternion.normSq,
      LLQuaternion.identity]
  · norm_num [claimedActiveChildAvg, signedAccum, childA, childB, sqrtC7, Joint.isActive,
      hasFlag, IK_FLAG_ACTIVE, qmul, qconj, qadd, qsub, qnormalizeWith, LLQuaternion.normSq,
      LLQuaternion.identity]
  · intro h
    have hw := congrArg LLQuaternion.w h
    norm_num [LLQuaternion.identity] at hw

/-- Claim C8 (code-bug evaluation): for any positive `pi`, feeding
`compute_angle_limits` the pair `min = -3·pi/2`, `max = 0` returns both
values unchanged, leaving the min limit strictly below `-pi` — outside the
`[-pi, pi]` range the function's own comment promises (the negative branch of
`remove_multiples_of_two_pi` never adds a turn back). -/
theorem compute_angle_limits_misses_range (pi : ℚ) (hpi : 0 < pi) :
    compute_angle_limits pi (-(3 * pi) / 2) 0 = (-(3 * pi) / 2, 0) ∧
    -(3 * pi) / 2 < -pi := by
  have h2pi : (0 : ℚ) < 2 * pi := by linarith
  have hdiv : -(3 * pi) / 2 / (2 * pi) = -(3 / 4 : ℚ) := by
    field_simp
    ring
  have htrneg : ratTrunc (-(3 / 4 : ℚ)) = 0 := by
    unfold ratTrunc
    rw [if_neg (by norm_num)]
    norm_num
  have htr : (ratTrunc (-(3 * pi) / 2 / (2 * pi)) : ℚ) = 0 := by
    rw [hdiv, htrneg]
    norm_num
  have htr0 : (ratTrunc ((0 : ℚ) / (2 * pi)) : ℚ) = 0 := by
    rw [zero_div]
    unfold ratTrunc
    rw [if_pos le_rfl]
    norm_num
  constructor
  · have hc1 : ¬ (pi < (0 : ℚ) - 2 * pi * 0) := by linarith
    have hc2 : ¬ (pi < -(3 * pi) / 2 - 2 * pi * 0) := by linarith
    have hc3 : ¬ ((0 : ℚ) - 2 * pi * 0 < -(3 * pi) / 2 - 2 * pi * 0) := by linarith
    simp only [compute_angle_limits, remove_multiples_of_two_pi, htr, htr0,
      if_neg hc1, if_neg hc2, if_neg hc3]
    norm_num
  · linarith

/-- Claim C8 witness: the evaluation at `pi = 3`. -/
theorem compute_angle_limits_misses_range_witness :
    compute_angle_limits 3 (-(3 * 3) / 2) 0 = (-(3 * 3) / 2, 0) ∧
    -(3 * 3) / 2 < -(3 : ℚ) :=
  compute_angle_limits_misses_range 3 (by norm_num)

/-- Claim C9 (code-bug evaluation): two `AcuteEllipsoidalCone` constraints
that differ only in the left extent (`mXLeft` 1 versus 2) feed exactly the
same value sequence to `boost::hash_combine` — line 1310 hashes the derived
`mLeft` axis instead of the `mXLeft` parameter — so the hash-keyed factory
hands the second request the first instance, sharing one constraint between
constraints with different parameters. -/
theorem acuteEllipsoidalCone_hash_ignores_left :
    coneLeft1.mXLeft = 1 ∧ coneLeft2.mXLeft = 2 ∧
    AcuteEllipsoidalCone.generateHashInputs coneLeft1 =
      AcuteEllipsoidalCone.generateHashInputs coneLeft2 ∧
    (factoryGetConstraint (factoryGetConstraint [] coneLeft1).2 coneLeft2).1 = coneLeft1 := by
  refine ⟨rfl, rfl, ?_, ?_⟩
  · norm_num [coneLeft1, coneLeft2, AcuteEllipsoidalCone.make, vnormalizeWith,
      LLVector3.cross, LLVector3.normSq, LLVector3.dot, LLVector3.smul, sqrtC9,
      AcuteEllipsoidalCone.generateHashInputs]
  · norm_num [coneLeft1, coneLeft2, AcuteEllipsoidalCone.make, vnormalizeWith,
      LLVector3.cross, LLVector3.normSq, LLVector3.dot, LLVector3.smul, sqrtC9,
      AcuteEllipsoidalCone.generateHashInputs, factoryGetConstraint, findByKey]

/-- Claim C10 (code-bug evaluation): a config entry naming joint 7, absent
from the skeleton, with a position target makes `measureMaxError` read
`mSkeleton[7]` — a default-inserted null pointer that the call dereferences,
modelled as the faulting `none` — while `getJointWorldRot` on the same
unknown id recovers with the default rotation and the same solver finishes
normally when no such entry is present. -/
theorem measureMaxError_unknown_joint_faults :
    Solver.measureMaxError sqrtC10 0 skelC10 cfgsC10 = none ∧
    Solver.getJointWorldRot skelC10 7 = LLQuaternion.identity ∧
    Solver.measureMaxError sqrtC10 0 skelC10 [] = some 0 := by
  refine ⟨?_, ?_, ?_⟩
  · norm_num [Solver.measureMaxError, skelC10, cfgsC10, findByKey, Config.hasTargetPos,
      Config.hasDelegated, hasFlag, CONFIG_FLAG_TARGET_POS, CONFIG_FLAG_HAS_DELEGATED]
    decide
  · norm_num [Solver.getJointWorldRot, skelC10, findByKey]
  · norm_num [Solver.measureMaxError]

/-- Claim C4 (code-bug evaluation): a locked root joint that starts a pass
with its world rotation equal to its local rotation, taken through the
shoulder back-rotation step of `ElbowConstraint::enforce` (llik.cpp lines
882-905; `KneeConstraint::enforce` lines 1095-1118 is identical in structure)
with a bent-arm pivot adjustment, ends with its world rotation turned to
`(0, 0, 3/5, 4/5)` by `setWorldRot`, while the restoring
`setLocalRot(getWorldRot())` on line 902 is a silent no-op on the locked root:
its local rotation stays the identity, so past this point the root's world
rotation no longer equals its local rotation. -/
theorem elbow_enforce_root_desync :
    rootC4.localRotLocked = true ∧
    rootC4.rot = rootC4.localRot ∧
    (elbowEnforceShoulderRoot sqrtC4 (1 / 300) ⟨1, 0, 0⟩ ⟨7 / 25, 24 / 25, 0⟩ rootC4).localRot
      = rootC4.localRot ∧
    (elbowEnforceShoulderRoot sqrtC4 (1 / 300) ⟨1, 0, 0⟩ ⟨7 / 25, 24 / 25, 0⟩ rootC4).rot
      = ⟨0, 0, 3 / 5, 4 / 5⟩ ∧
    (elbowEnforceShoulderRoot sqrtC4 (1 / 300) ⟨1, 0, 0⟩ ⟨7 / 25, 24 / 25, 0⟩ rootC4).rot
      ≠ (elbowEnforceShoulderRoot sqrtC4 (1 / 300) ⟨1, 0, 0⟩
          ⟨7 / 25, 24 / 25, 0⟩ rootC4).localRot := by
  refine ⟨?_, rfl, ?_, ?_, ?_⟩
  · simp [rootC4, Joint.localRotLocked, hasFlag, IK_FLAG_LOCAL_ROT_LOCKED]
  · norm_num [elbowEnforceShoulderRoot, shortestArcWith, LLVector3.dot, LLVector3.cross,
      LLVector3.normSq, qnormalizeWith, LLQuaternion.normSq, sqrtC4, almostEqualTol,
      LLQuaternion.identity, qmul, Joint.setWorldRot, Joint.setLocalRot,
      Joint.localRotLocked, hasFlag, IK_FLAG_LOCAL_ROT_LOCKED, rootC4]
    split
    next h => exact absurd h (by norm_num [abs_le])
    next => rfl
  · norm_num [elbowEnforceShoulderRoot, shortestArcWith, LLVector3.dot, LLVector3.cross,
      LLVector3.normSq, qnormalizeWith, LLQuaternion.normSq, sqrtC4, almostEqualTol,
      LLQuaternion.identity, qmul, Joint.setWorldRot, Joint.setLocalRot,
      Joint.localRotLocked, hasFlag, IK_FLAG_LOCAL_ROT_LOCKED, rootC4]
    split
    next h => exact absurd h (by norm_num [abs_le])
    next => rfl
  · norm_num [elbowEnforceShoulderRoot, shortestArcWith, LLVector3.dot, LLVector3.cross,
      LLVector3.normSq, qnormalizeWith, LLQuaternion.normSq, sqrtC4, almostEqualTol,
      LLQuaternion.identity, qmul, Joint.setWorldRot, Joint.setLocalRot,
      Joint.localRotLocked, hasFlag, IK_FLAG_LOCAL_ROT_LOCKED, rootC4]
    split
    next h => exact absurd h (by norm_num [abs_le])
    next => norm_num [LLQuaternion.mk.injEq]
